import Mathlib

/-!
# Verification of the VarProDMD module (src/pydmd/varprodmd.py)

Shallow embedding of the Variable-Projection DMD module over exact rational
arithmetic.  Complex numbers are pairs of rationals; numpy arrays become
lists (1-d) or dimension-carrying function matrices (2-d).  External
numerical-backend primitives (scipy SVD, eigvals, pivoted QR, the nonlinear
least-squares solver, and the square root / exponential scalar kernels) are
passed in as explicit oracle parameters: the module under verification only
composes them (spec section 5), so every theorem quantifies over the oracle
(adding the backend contract as a hypothesis where the property needs it).

Python exceptions are modelled with `Except String`; emitted warnings and
invocations of the heavy numerical phases are modelled as an event trace
returned next to the result, so that ordering claims (fail fast, warn and
proceed) become statements about the trace.
-/

/-- A complex number with exact rational parts, modelling a numpy
`complex128` scalar (floating point modelled exactly). -/
structure Cq where
  re : ℚ
  im : ℚ
deriving DecidableEq, Repr

instance : Inhabited Cq := ⟨⟨0, 0⟩⟩

instance : Zero Cq := ⟨⟨0, 0⟩⟩

instance : One Cq := ⟨⟨1, 0⟩⟩

instance : Add Cq := ⟨fun a b => ⟨a.re + b.re, a.im + b.im⟩⟩

instance : Neg Cq := ⟨fun a => ⟨-a.re, -a.im⟩⟩

instance : Sub Cq := ⟨fun a b => ⟨a.re - b.re, a.im - b.im⟩⟩

instance : Mul Cq := ⟨fun a b => ⟨a.re * b.re - a.im * b.im, a.re * b.im + a.im * b.re⟩⟩

/-- Complex conjugate. -/
def Cq.conj (a : Cq) : Cq := ⟨a.re, -a.im⟩

/-- Scaling of a complex scalar by a real (rational) factor. -/
def Cq.smulR (r : ℚ) (a : Cq) : Cq := ⟨r * a.re, r * a.im⟩

/-- Division of a complex scalar by a real (rational) factor. -/
def Cq.divR (a : Cq) (r : ℚ) : Cq := ⟨a.re / r, a.im / r⟩

/-- Squared magnitude of a complex scalar. -/
def Cq.norm2 (a : Cq) : ℚ := a.re * a.re + a.im * a.im

/-- Sum of a list of complex scalars. -/
def csum (l : List Cq) : Cq := l.foldr (· + ·) 0

/-! ## Real-split packing of the eigenvalue vector

`compute_varprodmd_any` packs the complex eigenvalue vector into a length-2r
real vector (lines 465-467: real parts first, then imaginary parts) before
handing it to the real-valued solver; `__compute_dmd_rho` and
`__compute_dmd_jac` unsplit it back (lines 234-236 / 293-295). -/

/-- Pack a complex vector into reals: real parts concatenated with imaginary
parts (varprodmd.py lines 465-467). -/
def pack_omegas (omegas : List Cq) : List ℚ :=
  omegas.map Cq.re ++ omegas.map Cq.im

/-- Unsplit a real vector of length 2l into l complex values: first half are
the real parts, second half the imaginary parts (varprodmd.py lines 234-236). -/
def unpack_alphas (alphas : List ℚ) : List Cq :=
  ((alphas.take (alphas.length / 2)).zip (alphas.drop (alphas.length / 2))).map
    fun p => ⟨p.1, p.2⟩

/-! ## Small numpy helpers (1-d array primitives used by the module) -/

/-- True on a raised Python exception, false on a normal return. -/
def isErr {α : Type} (e : Except String α) : Bool :=
  match e with
  | .error _ => true
  | .ok _ => false

/-- Ascending insertion step for `sortq`. -/
def ins_le (x : ℚ) : List ℚ → List ℚ
  | [] => [x]
  | y :: t => if y ≤ x then y :: ins_le x t else x :: y :: t

/-- Ascending sort of a rational list (backing `np.median`). -/
def sortq (l : List ℚ) : List ℚ := l.foldr ins_le []

/-- Model of `np.median` of a 1-d array: middle element of the sorted data for odd
length, average of the two middle elements for even length. -/
def np_median (xs : List ℚ) : ℚ :=
  let s := sortq xs
  let n := s.length
  if n % 2 = 1 then s.getD (n / 2) 0
  else (s.getD (n / 2 - 1) 0 + s.getD (n / 2) 0) / 2

/-- Model of `np.cumsum` of a 1-d array. -/
def np_cumsum (xs : List ℚ) : List ℚ :=
  (List.range xs.length).map (fun i => (xs.take (i + 1)).sum)

/-- Model of `np.searchsorted(a, v)` with the default left side: index of the first
entry that is at least `v`, or the length when every entry is below `v`. -/
def searchsorted_left (a : List ℚ) (v : ℚ) : ℕ :=
  match a with
  | [] => 0
  | x :: t => if v ≤ x then 0 else searchsorted_left t v + 1

/-! ## RankEstimator (`__svht`, `__compute_rank`, varprodmd.py lines 40-143)

`sqrtO` is the backend square-root kernel (`np.sqrt`), passed as an oracle.
A 1-d list cannot carry a wrong ndim, so the `__svht` 1-d shape guard has no
model-level counterpart; `__compute_rank` only ever passes it a 1-d array. -/

/-- Final counting step of `__svht` (lines 89-96), split out so the match can
be reasoned about uniformly. -/
def svht_count (sigma_svd : List ℚ) (tau_star : ℚ) : ℕ :=
  match ((List.range sigma_svd.length).filter
      (fun i => sigma_svd.getD i 0 ≥ tau_star)).getLast? with
  | none => sigma_svd.length
  | some k => k + 1

/-- Model of `__svht`: Gavish-Donoho style optimal-threshold rank (lines 40-96).
Returns the count `last index with sigma at least the threshold, plus one`,
or the full length when no singular value reaches the threshold. -/
def svht (sigma_svd : List ℚ) (rows cols : ℕ) (sigma : Option ℚ) (sqrtO : ℚ → ℚ) : ℕ :=
  let beta : ℚ := if rows > cols then (cols : ℚ) / (rows : ℚ) else (rows : ℚ) / (cols : ℚ)
  let tau_star : ℚ :=
    match sigma with
    | some s =>
      let s := |s|
      let lambda_star :=
        sqrtO (2 * (beta + 1) + 8 * beta / (beta + 1 + sqrtO (beta * beta + 14 * beta + 1)))
      lambda_star * s * sqrtO (if cols > rows then (cols : ℚ) else (rows : ℚ))
    | none =>
      let median := np_median sigma_svd
      let beta_square := beta * beta
      let beta_cubic := beta * beta_square
      let omega : ℚ := 0.56 * beta_cubic - 0.95 * beta_square + 1.82 * beta + 1.43
      median * omega
  svht_count sigma_svd tau_star

/-- Model of `__compute_rank` (lines 99-143): energy-threshold rank for a fraction in
(0,1), `__svht` for the sentinel 0, the value itself for an integer at least
1, an invalid-argument error for a negative specifier; the result is always
clamped by the length of the singular-value vector. -/
def compute_rank (sigma_x : List ℚ) (rows cols : ℕ) (rank : ℚ) (sigma : Option ℚ)
    (sqrtO : ℚ → ℚ) : Except String ℕ :=
  (if 0 < rank ∧ rank < 1 then
    let squares := sigma_x.map (fun x => x ^ 2)
    let cumulative_energy := np_cumsum (squares.map (fun x => x / squares.sum))
    Except.ok (searchsorted_left cumulative_energy rank + 1)
  else if rank = 0 then
    Except.ok (svht sigma_x rows cols sigma sqrtO)
  else if 1 ≤ rank then
    Except.ok (Int.toNat ⌊rank⌋)
  else
    Except.error ("Invalid rank specified, provided " ++ toString rank ++ "!")).map
    (fun r => min r sigma_x.length)

/-! ## Array and matrix model

A numpy ndarray is modelled by its shape together with the row-major flat
data (`CArr` complex, `RArr` real); a 2-d array in computation position is a
dimension-carrying function matrix `GM`.  numpy raises on mismatched shapes
in arithmetic; the modelled call paths only combine matching shapes, and the
operations below take their result dimensions from the operand the numpy
broadcasting rules would dictate. -/

/-- A numpy ndarray of complex values: shape plus row-major flat data. -/
structure CArr where
  shape : List ℕ
  data : List Cq

/-- A numpy ndarray of real values. -/
structure RArr where
  shape : List ℕ
  data : List ℚ

/-- A 2-d matrix with entries in `α`: explicit dimensions and an entry
function (reads outside the dimensions are never used by the model). -/
structure GM (α : Type) where
  nr : ℕ
  nc : ℕ
  ent : ℕ → ℕ → α

instance : Inhabited (GM Cq) := ⟨⟨0, 0, fun _ _ => 0⟩⟩

instance : Inhabited (GM ℚ) := ⟨⟨0, 0, fun _ _ => 0⟩⟩

/-- View the flat data of a 2-d ndarray as a matrix. -/
def CArr.toGM (a : CArr) : GM Cq :=
  ⟨a.shape.getD 0 0, a.shape.getD 1 0, fun i j => a.data.getD (i * a.shape.getD 1 0 + j) 0⟩

/-- Matrix product (`@` / `np.linalg.multi_dot` step); inner length taken
from the left operand as numpy requires both to agree. -/
def mmul (A B : GM Cq) : GM Cq :=
  ⟨A.nr, B.nc, fun i j => csum ((List.range A.nc).map (fun k => A.ent i k * B.ent k j))⟩

/-- Conjugate transpose (`.conj().T`). -/
def conjT (A : GM Cq) : GM Cq := ⟨A.nc, A.nr, fun i j => (A.ent j i).conj⟩

/-- Plain transpose (`.T`). -/
def transposeGM (A : GM Cq) : GM Cq := ⟨A.nc, A.nr, fun i j => A.ent j i⟩

/-- Entrywise difference of equally shaped matrices. -/
def msub (A B : GM Cq) : GM Cq := ⟨A.nr, A.nc, fun i j => A.ent i j - B.ent i j⟩

/-- Entrywise negation. -/
def mneg (A : GM Cq) : GM Cq := ⟨A.nr, A.nc, fun i j => -(A.ent i j)⟩

/-- Column slice `A[:, :k]`. -/
def takeCols (A : GM Cq) (k : ℕ) : GM Cq := ⟨A.nr, min k A.nc, A.ent⟩

/-- Row slice `A[:k, :]`. -/
def takeRows (A : GM Cq) (k : ℕ) : GM Cq := ⟨min k A.nr, A.nc, A.ent⟩

/-- Column slice `A[:, :-1]`. -/
def dropLastCol (A : GM Cq) : GM Cq := ⟨A.nr, A.nc - 1, A.ent⟩

/-- Column slice `A[:, 1:]`. -/
def tailCols (A : GM Cq) : GM Cq := ⟨A.nr, A.nc - 1, fun i j => A.ent i (j + 1)⟩

/-- Row-broadcast column scaling `A * s.reshape((1, -1))` with a real 1-d
array `s`. -/
def scaleColsR (A : GM Cq) (s : List ℚ) : GM Cq :=
  ⟨A.nr, A.nc, fun i j => Cq.smulR (s.getD j 0) (A.ent i j)⟩

/-- Row-broadcast column scaling by a complex 1-d array. -/
def scaleColsC (A : GM Cq) (s : List Cq) : GM Cq :=
  ⟨A.nr, A.nc, fun i j => A.ent i j * s.getD j 0⟩

/-- Column-broadcast row scaling `A * s.reshape((-1, 1))` with a real 1-d
array `s`. -/
def scaleRowsR (A : GM Cq) (s : List ℚ) : GM Cq :=
  ⟨A.nr, A.nc, fun i j => Cq.smulR (s.getD i 0) (A.ent i j)⟩

/-- Entrywise scaling by a rational constant. -/
def scaleGM (c : ℚ) (A : GM Cq) : GM Cq := ⟨A.nr, A.nc, fun i j => Cq.smulR c (A.ent i j)⟩

/-- Column-broadcast division of each column `j` by the real scalar
`s[j]` (`A / s.reshape((1, -1))`). -/
def divColsR (A : GM Cq) (s : List ℚ) : GM Cq :=
  ⟨A.nr, A.nc, fun i j => Cq.divR (A.ent i j) (s.getD j 0)⟩

/-- Column subset `A[:, idx]`. -/
def selectCols (A : GM Cq) (idx : List ℕ) : GM Cq :=
  ⟨A.nr, idx.length, fun i j => A.ent i (idx.getD j 0)⟩

/-- Row `A[j, :]` as a 1-d array. -/
def rowOf (A : GM Cq) (j : ℕ) : List Cq := (List.range A.nc).map (A.ent j)

/-- Column `A[:, j]` as a 1-d array. -/
def colOf (A : GM Cq) (j : ℕ) : List Cq := (List.range A.nr).map (fun i => A.ent i j)

/-- Row-major flattening `np.ravel`. -/
def ravelGM (A : GM Cq) : List Cq :=
  (List.range (A.nr * A.nc)).map (fun k => A.ent (k / A.nc) (k % A.nc))

/-- Outer product `np.outer(u, v)` of 1-d arrays. -/
def outerC (u v : List Cq) : GM Cq :=
  ⟨u.length, v.length, fun i j => u.getD i 0 * v.getD j 0⟩

/-- Vector-matrix product `v @ A` of a 1-d array with a matrix. -/
def vecMat (v : List Cq) (A : GM Cq) : List Cq :=
  (List.range A.nc).map (fun j => csum ((List.range A.nr).map (fun k => v.getD k 0 * A.ent k j)))

/-! ## SampleSelector (`select_best_samples_fast`, varprodmd.py lines 369-396)

The pivoted-QR factorization is scipy backend work; its pivot-column output
is the oracle `qrO`, whose documented contract is to return a permutation of
the column indices `0..m-1`. -/

/-- Model of `select_best_samples_fast`: validate the array rank and the compression
fraction, then keep the first `int(m * (1.0 - comp))` pivot columns. -/
def select_best_samples_fast (data : CArr) (comp : ℚ) (qrO : CArr → List ℕ) :
    Except String (List ℕ) :=
  if data.shape.length ≠ 2 then Except.error "Expected 2D array!"
  else if ¬(0 < comp ∧ comp < 1) then Except.error "Compression must be in (0, 1)]"
  else
    let n_samples := (⌊(data.shape.getLastD 0 : ℚ) * (1 - comp)⌋).toNat
    let pcolumn := qrO data
    Except.ok (pcolumn.take n_samples)

/-! ## ResidualJacobianEngine (`__compute_dmd_rho`, `__compute_dmd_jac`,
varprodmd.py lines 190-332)

The dense SVD of the exponential basis is scipy backend work and enters as
the oracle `svdO` returning the economy factors (U, s, Vt); the scalar
complex exponential `np.exp` enters as the oracle `cexp`. -/

/-- Optimizer-scoped scratch state `__OptimizeHelper` (lines 190-203),
written by the residual evaluation and read by the Jacobian evaluation. -/
structure OptHelper where
  phi : GM Cq
  u_svd : GM Cq
  s_inv : List ℚ
  v_svd : GM Cq
  b_matrix : GM Cq
  rho : GM Cq

instance : Inhabited OptHelper := ⟨⟨default, default, [], default, default, default⟩⟩

/-- The exponential basis `phi = np.exp(np.outer(time, alphas))` built from
the unsplit trial eigenvalues (line 238). -/
def rho_phi (alphas time : List ℚ) (cexp : Cq → Cq) : GM Cq :=
  let a := unpack_alphas alphas
  ⟨time.length, a.length, fun i j => cexp (Cq.smulR (time.getD i 0) (a.getD j 0))⟩

/-- Pseudo-inverse reciprocals of the singular values (lines 240-242): the
reciprocal where the value is nonzero, zero where it is exactly zero. -/
def pinv_reciprocal (s : List ℚ) : List ℚ :=
  s.map (fun x => if x ≠ 0 then 1 / x else 0)

/-- Model of `__compute_dmd_rho` (lines 206-262): unsplit the trial parameters, build
the exponential basis, take its (oracle) SVD, zero out degenerate
reciprocals, project the data onto the orthogonal complement of the basis
range, and return the real-split flattened residual together with the
refreshed scratch state. -/
def compute_dmd_rho (alphas time : List ℚ) (data : GM Cq)
    (svdO : GM Cq → GM Cq × List ℚ × GM Cq) (cexp : Cq → Cq) : List ℚ × OptHelper :=
  let phi := rho_phi alphas time cexp
  let svd := svdO phi
  let u := svd.1
  let s := svd.2.1
  let v_t := svd.2.2
  let s_inv := pinv_reciprocal s
  let rho := msub data (mmul u (mmul (conjT u) data))
  let rho_flat := ravelGM rho
  let rho_out := rho_flat.map Cq.re ++ rho_flat.map Cq.im
  let v_svd := conjT v_t
  let b_matrix := mmul (scaleColsR v_svd s_inv) (mmul (conjT u) data)
  (rho_out, ⟨phi, u, s_inv, v_svd, b_matrix, rho⟩)

/-- A degenerate backend SVD reporting a single zero singular value, used by
the C8 witness. -/
def svd_zero_oracle : GM Cq → GM Cq × List ℚ × GM Cq := fun a => (a, [0], a)

/-- A 1-by-1 all-ones matrix used by concrete witnesses. -/
def one_matrix : GM Cq := ⟨1, 1, fun _ _ => 1⟩

/-- The complex per-parameter Jacobian block `-(A_j + G_j)` of
`__compute_dmd_jac` (lines 298-313), built from the scratch state cached by
the residual evaluation. -/
def jac_block (time : List ℚ) (oh : OptHelper) (j : ℕ) : GM Cq :=
  let d_phi_j : List Cq :=
    (List.range oh.phi.nr).map (fun i => Cq.smulR (time.getD i 0) (oh.phi.ent i j))
  let outer0 := outerC d_phi_j (rowOf oh.b_matrix j)
  let a_j := msub outer0 (mmul oh.u_svd (mmul (conjT oh.u_svd) outer0))
  let g_j := mmul (scaleColsR oh.u_svd oh.s_inv)
    (outerC ((rowOf oh.v_svd j).map Cq.conj) (vecMat (d_phi_j.map Cq.conj) oh.rho))
  msub (mneg a_j) g_j

/-- Model of `__compute_dmd_jac` (lines 265-332): the real Jacobian of shape
(2*prod(data.shape), len(alphas)).  Column j < l holds the real-split
flattened block for the real part of parameter j (real halves on top,
imaginary halves below); column l+j holds the same block rotated by
multiplication by i (negated imaginary half on top, real half below). -/
def compute_dmd_jac (alphas time : List ℚ) (data : GM Cq) (oh : OptHelper) : GM ℚ :=
  ⟨2 * (data.nr * data.nc), alphas.length, fun i c =>
    if c < alphas.length / 2 then
      if i < data.nr * data.nc then ((ravelGM (jac_block time oh c)).getD i 0).re
      else ((ravelGM (jac_block time oh c)).getD (i - data.nr * data.nc) 0).im
    else
      if i < data.nr * data.nc then
        -(((ravelGM (jac_block time oh (c - alphas.length / 2))).getD i 0).im)
      else ((ravelGM (jac_block time oh (c - alphas.length / 2))).getD
        (i - data.nr * data.nc) 0).re⟩

/-! ## Orchestration model (`compute_varprodmd_any` and the operator)

The heavy numerical phases are modelled as an event trace returned beside
the result: `svdEv` for the initial SVD/rank work, `eigInitEv` for the
linear-DMD eigenvalue initialization, `warnEv` for the non-fatal
underdetermined-system warning, and `solveEv` for the nonlinear
least-squares solve. -/

/-- Observable events of one orchestration run. -/
inductive Ev where
  | svdEv
  | eigInitEv
  | warnEv
  | solveEv
deriving DecidableEq, Repr

/-- The scipy least-squares result: optimal parameters `x`, final residual
vector (`fun` in scipy, renamed as `fun` is reserved), the Jacobian shape at
the optimum, and the coefficient matrix cached in the optimization helper by
the solver's final residual evaluation. -/
structure LsqOut where
  x : List ℚ
  fvec : List ℚ
  jacNr : ℕ
  jacNc : ℕ
  bMatrix : GM Cq

instance : Inhabited LsqOut := ⟨⟨[], [], 0, 0, default⟩⟩

/-- The external numerical backend (spec section 5): economy SVD, dense
eigenvalues, pivoted-QR column pivots, the nonlinear least-squares solver,
and the scalar square root and complex exponential kernels. -/
structure Oracles where
  svd : GM Cq → GM Cq × List ℚ × GM Cq
  eigvals : GM Cq → List Cq
  qrPivots : CArr → List ℕ
  lsq : List ℚ → List ℚ → GM Cq → LsqOut
  sqrtQ : ℚ → ℚ
  cexp : Cq → Cq

/-- Entrywise sum of equally shaped matrices. -/
def maddGM (A B : GM Cq) : GM Cq := ⟨A.nr, A.nc, fun i j => A.ent i j + B.ent i j⟩

/-- Model of `__compute_dmd_ev` (varprodmd.py lines 146-187): economy SVD of the
current observables, rank truncation, reduced linear operator through the
pseudo-inverse, and its (oracle) eigenvalues as the initial guess. -/
def compute_dmd_ev (x_current x_next : GM Cq) (rank : ℚ) (orc : Oracles) :
    Except String (List Cq) :=
  (compute_rank (orc.svd x_current).2.1 x_current.nr x_current.nc rank none
    orc.sqrtQ).map fun r =>
    orc.eigvals (mmul (conjT (takeCols (orc.svd x_current).1 r))
      (mmul x_next (scaleColsR (conjT (takeRows (orc.svd x_current).2.2 r))
        (((orc.svd x_current).2.1.take r).map (fun x => 1 / x)))))

/-- The result tuple of `compute_varprodmd_any` (line 495): normalized
modes, optimized continuous eigenvalues, amplitudes, selected indices, and
the raw optimizer output. -/
structure VarProAny where
  modes : GM Cq
  omegas : List Cq
  eigenf : List ℚ
  indices : List ℕ
  opt : LsqOut

instance : Inhabited VarProAny := ⟨⟨default, [], [], [], default⟩⟩

/-- Unwrap a normal return, with the default value on the (never-taken)
error side. -/
def okD {α : Type} [Inhabited α] (e : Except String α) : α :=
  match e with
  | .ok v => v
  | .error _ => default

/-- Tail of `compute_varprodmd_any` after the compression decision (lines
482-495): underdetermined check against the eigenvalue count, the nonlinear
solve, in-place overwrite of the eigenvalues from the optimal parameters,
mode reconstruction, and column normalization. -/
def varprodmd_solve_tail (use_proj : Bool) (u_r : GM Cq) (omegas : List Cq)
    (omegas_in : List ℚ) (indices : List ℕ) (data_in : GM Cq) (time_in : List ℚ)
    (orc : Oracles) : List Ev × VarProAny :=
  let opt := orc.lsq omegas_in time_in (transposeGM data_in)
  let xr := opt.x.take (opt.x.length / 2)
  let xim := opt.x.drop (opt.x.length / 2)
  let omegas2 := (List.range omegas.length).map (fun i => (⟨xr.getD i 0, xim.getD i 0⟩ : Cq))
  let xi_mat := if use_proj then mmul u_r (transposeGM opt.bMatrix) else transposeGM opt.bMatrix
  let eigenf := (List.range xi_mat.nc).map
    (fun j => orc.sqrtQ ((colOf xi_mat j).map Cq.norm2).sum)
  let modes := divColsR xi_mat eigenf
  ((if data_in.nc < omegas.length then [Ev.warnEv] else []) ++ [Ev.solveEv],
    ⟨modes, omegas2, eigenf, indices, opt⟩)

/-- The working representation `data_in` (line 458): projected low-rank
coordinates when `use_proj`, else the raw data. -/
def vpany_data_in (data : CArr) (use_proj : Bool) (orc : Oracles) (r : ℕ) : GM Cq :=
  if use_proj then
    scaleRowsR (conjT (conjT (takeRows (orc.svd data.toGM).2.2 r)))
      ((orc.svd data.toGM).2.1.take r)
  else data.toGM

/-- Trapezoidal midpoints `y_in` (line 461). -/
def vpany_y_in (data : CArr) (use_proj : Bool) (orc : Oracles) (r : ℕ) : GM Cq :=
  scaleGM (1 / 2) (maddGM (dropLastCol (vpany_data_in data use_proj orc r))
    (tailCols (vpany_data_in data use_proj orc r)))

/-- Time-step differences `dt_in` (line 462). -/
def vpany_dt (time : RArr) : List ℚ :=
  List.zipWith (fun a b => a - b) (time.data.drop 1) time.data.dropLast

/-- Trapezoidal derivative approximation `z_in` (line 463). -/
def vpany_z_in (data : CArr) (time : RArr) (use_proj : Bool) (orc : Oracles)
    (r : ℕ) : GM Cq :=
  divColsR (msub (tailCols (vpany_data_in data use_proj orc r))
    (dropLastCol (vpany_data_in data use_proj orc r))) (vpany_dt time)

/-- Assembly of the final trace and result pair around the solve tail. -/
def vpany_finish (use_proj : Bool) (u_r : GM Cq) (omegas : List Cq) (indices : List ℕ)
    (data_in2 : GM Cq) (time_in : List ℚ) (orc : Oracles) :
    List Ev × Except String VarProAny :=
  ([Ev.svdEv, Ev.eigInitEv] ++ (varprodmd_solve_tail use_proj u_r omegas
      (pack_omegas omegas) indices data_in2 time_in orc).1,
    Except.ok (varprodmd_solve_tail use_proj u_r omegas (pack_omegas omegas) indices
      data_in2 time_in orc).2)

/-- Compression decision of `compute_varprodmd_any` (lines 469-480): for a
positive compression run the sample selector; keep its indices only when it
returns more than one, else fall back to the identity index set. -/
def vpany_compress (data : CArr) (time : RArr) (use_proj : Bool) (compression : ℚ)
    (orc : Oracles) (r : ℕ) (omegas : List Cq) : List Ev × Except String VarProAny :=
  if 0 < compression then
    match select_best_samples_fast ⟨[(vpany_data_in data use_proj orc r).nr,
        (vpany_data_in data use_proj orc r).nc], ravelGM (vpany_data_in data use_proj orc r)⟩
        compression orc.qrPivots with
    | .error e => ([Ev.svdEv, Ev.eigInitEv], Except.error e)
    | .ok idx0 =>
      vpany_finish use_proj (takeCols (orc.svd data.toGM).1 r) omegas
        (if 1 < idx0.length then idx0 else List.range (vpany_data_in data use_proj orc r).nc)
        (selectCols (vpany_data_in data use_proj orc r)
          (if 1 < idx0.length then idx0
            else List.range (vpany_data_in data use_proj orc r).nc))
        ((if 1 < idx0.length then idx0
            else List.range (vpany_data_in data use_proj orc r).nc).map
          (fun i => time.data.getD i 0)) orc
  else
    vpany_finish use_proj (takeCols (orc.svd data.toGM).1 r) omegas
      (List.range (vpany_data_in data use_proj orc r).nc)
      (vpany_data_in data use_proj orc r) time.data orc

/-- Eigenvalue-initialization stage of `compute_varprodmd_any` (line 464)
followed by the compression stage. -/
def vpany_eig_stage (data : CArr) (time : RArr) (use_proj : Bool) (compression : ℚ)
    (orc : Oracles) (r : ℕ) : List Ev × Except String VarProAny :=
  match compute_dmd_ev (vpany_y_in data use_proj orc r)
      (vpany_z_in data time use_proj orc r) (r : ℚ) orc with
  | .error e => ([Ev.svdEv, Ev.eigInitEv], Except.error e)
  | .ok omegas => vpany_compress data time use_proj compression orc r omegas

/-- Model of `compute_varprodmd_any` (lines 399-495): validation, SVD plus rank
truncation, optional projection, trapezoidal derivative pair, linear-DMD
eigenvalue initialization, optional pivoted-QR sample compression with the
degenerate-selection fallback, underdetermined warning, and the nonlinear
solve.  Python locals are modelled by the pure stage functions above. -/
def compute_varprodmd_any (data : CArr) (time : RArr) (rank : ℚ) (use_proj : Bool)
    (compression : ℚ) (orc : Oracles) : List Ev × Except String VarProAny :=
  if data.shape.length ≠ 2 then ([], Except.error "data needs to be 2D array")
  else if time.shape.length ≠ 1 then ([], Except.error "time needs to be a 1D array")
  else
    match compute_rank (orc.svd data.toGM).2.1 (data.shape.getD 0 0)
        (data.shape.getD 1 0) rank none orc.sqrtQ with
    | .error e => ([Ev.svdEv], Except.error e)
    | .ok r => vpany_eig_stage data time use_proj compression orc r

/-! ## Eigenvalue sorting policy (`VarProOperator.compute_operator`,
varprodmd.py lines 602-674) -/

/-- Model of `np.var` of a 1-d array (population variance, ddof = 0). -/
def np_var (xs : List ℚ) : ℚ :=
  let mu := xs.sum / (xs.length : ℚ)
  (xs.map (fun x => (x - mu) ^ 2)).sum / (xs.length : ℚ)

/-- Model of `np.argmax`: index of the first occurrence of the maximum. -/
def np_argmax (xs : List ℚ) : ℕ :=
  (List.range xs.length).foldl (fun b i => if xs.getD b 0 < xs.getD i 0 then i else b) 0

/-- Index-insertion step for `np_argsort`. -/
def ins_idx (xs : List ℚ) (i : ℕ) : List ℕ → List ℕ
  | [] => [i]
  | j :: t => if xs.getD j 0 ≤ xs.getD i 0 then j :: ins_idx xs i t else i :: j :: t

/-- Model of `np.argsort`: indices ordering the values ascendingly (tie order is
unspecified by numpy's default quicksort; this model fixes one). -/
def np_argsort (xs : List ℚ) : List ℕ :=
  (List.range xs.length).foldr (ins_idx xs) []

/-- Model of `np.abs` on a complex entry: the magnitude sqrt(re^2 + im^2), through
the backend square-root kernel. -/
def np_cabs (sqrtO : ℚ → ℚ) (z : Cq) : ℚ := sqrtO (z.re ^ 2 + z.im ^ 2)

/-- Sort-key selection of `compute_operator` (lines 645-667): for "auto" the
variances of the raw real parts, raw imaginary parts, and magnitudes are
compared and the array with the largest variance becomes the key (note the
code takes no absolute value on the real/imaginary parts here); "real",
"imag", "abs" use the absolute values; any other string raises. -/
def sort_key (s : String) (eigenvalues : List Cq) (sqrtO : ℚ → ℚ) :
    Except String (List ℚ) :=
  if s = "auto" then
    Except.ok ([eigenvalues.map Cq.re, eigenvalues.map Cq.im,
      eigenvalues.map (np_cabs sqrtO)].getD
      (np_argmax [np_var (eigenvalues.map Cq.re), np_var (eigenvalues.map Cq.im),
        np_var (eigenvalues.map (np_cabs sqrtO))]) [])
  else if s = "real" then Except.ok (eigenvalues.map (fun z => |z.re|))
  else if s = "imag" then Except.ok (eigenvalues.map (fun z => |z.im|))
  else if s = "abs" then Except.ok (eigenvalues.map (np_cabs sqrtO))
  else Except.error (s ++ " not supported!")

/-- Sorting block of `compute_operator` (lines 645-672): pick the key, take
the descending argsort, and permute eigenvalues, mode columns, and
amplitudes by the same index list. -/
def sort_eigenvalues (s : String) (eigenvalues : List Cq) (modes : GM Cq)
    (eigenf : List ℚ) (sqrtO : ℚ → ℚ) :
    Except String (List Cq × GM Cq × List ℚ) :=
  match sort_key s eigenvalues sqrtO with
  | .error e => Except.error e
  | .ok key =>
    Except.ok (((np_argsort key).reverse).map (fun i => eigenvalues.getD i 0),
      selectCols modes ((np_argsort key).reverse),
      ((np_argsort key).reverse).map (fun i => eigenf.getD i 0))

/-- The `sorted_eigs` configuration value: a bool or a string. -/
inductive SortPolicy where
  | ofBool (b : Bool)
  | ofStr (s : String)

/-- The lazy bool-to-string rewrite at lines 641-643: `True` becomes
"auto", `False` stays a bool (so sorting is skipped). -/
def normalize_policy : SortPolicy → SortPolicy
  | SortPolicy.ofBool b => if b then SortPolicy.ofStr "auto" else SortPolicy.ofBool b
  | SortPolicy.ofStr s => SortPolicy.ofStr s

/-- Return value of `compute_operator` together with the operator state it
stores (modes and eigenvalues). -/
structure OpOut where
  modes : GM Cq
  eigenvalues : List Cq
  eigenf : List ℚ
  indices : List ℕ
  opt : LsqOut

instance : Inhabited OpOut := ⟨⟨default, [], [], [], default⟩⟩

/-- Post-processing of `compute_operator` (lines 640-674): run the sorting
policy over the result of `compute_varprodmd_any`, leaving the trace of the
numerical phases untouched. -/
def operator_post (sorted_eigs : SortPolicy) (orc : Oracles) (tr : List Ev)
    (res : Except String VarProAny) : List Ev × Except String OpOut :=
  match res with
  | .error e => (tr, Except.error e)
  | .ok r =>
    match normalize_policy sorted_eigs with
    | SortPolicy.ofBool _ =>
      (tr, Except.ok ⟨r.modes, r.omegas, r.eigenf, r.indices, r.opt⟩)
    | SortPolicy.ofStr s =>
      match sort_eigenvalues s r.omegas r.modes r.eigenf orc.sqrtQ with
      | .error e => (tr, Except.error e)
      | .ok out => (tr, Except.ok ⟨out.2.1, out.1, out.2.2, r.indices, r.opt⟩)

/-- Model of `VarProOperator.compute_operator` (lines 602-674): the full numerical
pipeline first, the sorting policy (and its invalid-string error) only
afterwards. -/
def compute_operator (X : CArr) (time : RArr) (svd_rank : ℚ) (exact : Bool)
    (sorted_eigs : SortPolicy) (compression : ℚ) (orc : Oracles) :
    List Ev × Except String OpOut :=
  operator_post sorted_eigs orc
    (compute_varprodmd_any X time svd_rank (!exact) compression orc).1
    (compute_varprodmd_any X time svd_rank (!exact) compression orc).2

/-- The error message of a raised exception, if any. -/
def errMsg {α : Type} : Except String α → Option String
  | .error e => some e
  | .ok _ => none

/-- The normal return value, if any. -/
def okOpt {α : Type} : Except String α → Option α
  | .ok v => some v
  | .error _ => none

/-! ## Concrete backend oracles for witnesses and counterexamples -/

/-- An exact square root on perfect squares of naturals (floor square root
otherwise); stands in for `np.sqrt` at concrete inputs. -/
def nat_sqrtq (q : ℚ) : ℚ :=
  ((((List.range (q.num.toNat + 1)).filter (fun k => k * k ≤ q.num.toNat)).getLastD 0 : ℕ) : ℚ)

/-- A fixed rank-2 SVD stand-in. -/
def svd_oracle_c : GM Cq → GM Cq × List ℚ × GM Cq :=
  fun m => (⟨m.nr, 2, fun _ _ => 1⟩, [2, 1], ⟨2, m.nc, fun _ _ => 1⟩)

/-- Eigenvalues stand-in: one eigenvalue per row of the input operator. -/
def eig_oracle_c : GM Cq → List Cq := fun m => (List.range m.nr).map (fun _ => ⟨1, 0⟩)

/-- Identity pivoting stand-in for the pivoted QR. -/
def qr_oracle_c : CArr → List ℕ := fun a => List.range (a.shape.getLastD 0)

/-- Least-squares stand-in returning the initial parameters unchanged. -/
def lsq_oracle_c : List ℚ → List ℚ → GM Cq → LsqOut := fun x _ _ => ⟨x, [], 0, 0, default⟩

/-- The assembled concrete backend. -/
def oracle_c : Oracles :=
  ⟨svd_oracle_c, eig_oracle_c, qr_oracle_c, lsq_oracle_c, nat_sqrtq, id⟩

/-- A concrete run with 3 retained samples and r = 2 eigenvalues. -/
def c5x_run : List Ev × Except String VarProAny :=
  compute_varprodmd_any ⟨[2, 3], [⟨1, 0⟩, ⟨1, 0⟩, ⟨1, 0⟩, ⟨1, 0⟩, ⟨1, 0⟩, ⟨1, 0⟩]⟩
    ⟨[3], [0, 1, 2]⟩ 2 true 0 oracle_c

/-- A concrete underdetermined run: one retained sample, two eigenvalues. -/
def c5w_run : List Ev × Except String VarProAny :=
  compute_varprodmd_any ⟨[2, 1], [⟨1, 0⟩, ⟨1, 0⟩]⟩ ⟨[1], [0]⟩ 2 true 0 oracle_c

/-- The concrete bogus-policy operator run behind the C2 counterexample. -/
def c2x_run : List Ev × Except String OpOut :=
  compute_operator ⟨[1, 2], [⟨1, 0⟩, ⟨1, 0⟩]⟩ ⟨[2], [0, 1]⟩ 1 false
    (SortPolicy.ofStr "bogus") 0 oracle_c

/-- The successful pipeline run underlying the C2 witness. -/
def c2w_run : List Ev × Except String VarProAny :=
  compute_varprodmd_any ⟨[1, 2], [⟨1, 0⟩, ⟨1, 0⟩]⟩ ⟨[2], [0, 1]⟩ 1 (!false) 0 oracle_c

/-! ## C9: the VarProDMD model lifecycle (varprodmd.py lines 677-909)

The base class `DMDBase` (dmd.py) and the snapshot holder are external to
the source under verification; the lifecycle flag and the base accessors
used by `dynamics`, `frequency` and `growth_rate` are modelled from the
spec (sections 4.6 and 6). -/

/-- The VarProDMD instance state after construction or fit.  The `fitted`
flag is modelled from the spec: DMDBase lifecycle bookkeeping (unfit until
the fitting transition completes, fitted afterwards, no transition back). -/
structure VarProDMDSt where
  fitted : Bool
  modes : GM Cq
  eigenvalues : List Cq
  b : List ℚ
  optres : LsqOut
  indices : List ℕ
  original_time : List ℚ
  dmd_time : List ℚ

instance : Inhabited VarProDMDSt :=
  ⟨⟨false, default, [], [], default, [], [], []⟩⟩

/-- Model of `VarProDMD.fit` (lines 759-780): run the operator computation and store
amplitudes, optimizer result, indices and times; on success the instance
becomes fitted. -/
def fit_varprodmd (X : CArr) (time : RArr) (svd_rank : ℚ) (exact : Bool)
    (sorted_eigs : SortPolicy) (compression : ℚ) (orc : Oracles) :
    List Ev × Except String VarProDMDSt :=
  match compute_operator X time svd_rank exact sorted_eigs compression orc with
  | (tr, .error e) => (tr, Except.error e)
  | (tr, .ok r) =>
    (tr, Except.ok ⟨true, r.modes, r.eigenvalues, r.eigenf, r.opt, r.indices,
      time.data, r.indices.map (fun i => time.data.getD i 0)⟩)

/-- Modelled from the spec: the DMDBase eigenvalue accessor `eigs` used by
`dynamics`, `frequency` and `growth_rate` (dmd.py is not under src/);
spec sections 4.6 and 6: every fit-derived property accessor fails with a
not-fitted error until the fitting transition completes, then exposes the
operator eigenvalues. -/
def dmd_eigs (s : VarProDMDSt) : Except String (List Cq) :=
  if s.fitted then Except.ok s.eigenvalues else Except.error "not fitted"

/-- Modelled from the spec: the DMDBase amplitude accessor `amplitudes`
(dmd.py is not under src/); fails with a not-fitted error pre-fit, then
exposes the stored amplitudes. -/
def dmd_amplitudes (s : VarProDMDSt) : Except String (List ℚ) :=
  if s.fitted then Except.ok s.b else Except.error "not fitted"

/-- Model of `VarProDMD.ssr` (lines 802-835): not-fitted guard, then the square root
of the normalized sum of squared residuals from the optimizer output. -/
def vpd_ssr (s : VarProDMDSt) (sqrtO : ℚ → ℚ) : Except String ℚ :=
  if !s.fitted then Except.error "Nothing fitted yet!"
  else
    let rho_flat_real := s.optres.fvec
    let half := rho_flat_real.length / 2
    let sigma := sqrtO (((rho_flat_real.take half).zip (rho_flat_real.drop half)).map
      (fun p => p.1 ^ 2 + p.2 ^ 2)).sum
    let denom := max (s.original_time.length - s.optres.jacNr / 2 - s.optres.jacNc / 2) 1
    Except.ok (sigma / sqrtO (denom : ℚ))

/-- Model of `VarProDMD.selected_samples` (lines 837-857). -/
def vpd_selected_samples (s : VarProDMDSt) : Except String (List ℕ) :=
  if !s.fitted then Except.error "Nothing fitted yet, need to call fit-method first!"
  else Except.ok s.indices

/-- Model of `VarProDMD.opt_stats` (lines 859-875). -/
def vpd_opt_stats (s : VarProDMDSt) : Except String LsqOut :=
  if !s.fitted then Except.error "Nothing fitted yet!"
  else Except.ok s.optres

/-- Model of `optdmd_predict` (lines 498-525): modes times the amplitude-scaled
matrix exponential of the eigenvalue/time outer product. -/
def optdmd_predict (phi : GM Cq) (omegas : List Cq) (eigenf : List ℚ)
    (time : List ℚ) (cexp : Cq → Cq) : GM Cq :=
  mmul phi ⟨omegas.length, time.length, fun i j =>
    Cq.smulR (eigenf.getD i 0) (cexp (Cq.smulR (time.getD j 0) (omegas.getD i 0)))⟩

/-- Model of `VarProDMD.dynamics` (lines 877-887), through the modelled base
accessors. -/
def vpd_dynamics (s : VarProDMDSt) (cexp : Cq → Cq) : Except String (GM Cq) :=
  match dmd_eigs s, dmd_amplitudes s with
  | .ok e, .ok a =>
    Except.ok ⟨e.length, s.original_time.length, fun i j =>
      Cq.smulR (a.getD i 0) (cexp (Cq.smulR (s.original_time.getD j 0) (e.getD i 0)))⟩
  | .error m, _ => Except.error m
  | .ok _, .error m => Except.error m

/-- Model of `VarProDMD.frequency` (lines 889-898): Im(eigs) / (2 pi), with the
numerical constant pi passed through. -/
def vpd_frequency (s : VarProDMDSt) (piQ : ℚ) : Except String (List ℚ) :=
  (dmd_eigs s).map (fun e => e.map (fun z => z.im / (2 * piQ)))

/-- Model of `VarProDMD.growth_rate` (lines 900-909): Re(eigs). -/
def vpd_growth_rate (s : VarProDMDSt) : Except String (List ℚ) :=
  (dmd_eigs s).map (fun e => e.map Cq.re)

/-- Model of `VarProDMD.forecast` (lines 782-800): not-fitted guard, then the
`optdmd_predict` reconstruction at the requested times. -/
def vpd_forecast (s : VarProDMDSt) (time : List ℚ) (cexp : Cq → Cq) :
    Except String (GM Cq) :=
  if !s.fitted then Except.error "Nothing fitted yet, need to call fit-method first!"
  else Except.ok (optdmd_predict s.modes s.eigenvalues s.b time cexp)

/-- The successful concrete fit behind the C9 witness. -/
def c9_fit : List Ev × Except String VarProDMDSt :=
  fit_varprodmd ⟨[1, 2], [⟨1, 0⟩, ⟨1, 0⟩]⟩ ⟨[2], [0, 1]⟩ 1 false (SortPolicy.ofBool false)
    0 oracle_c

@[simp] theorem Cq.zero_re : (0 : Cq).re = 0 := rfl

@[simp] theorem Cq.zero_im : (0 : Cq).im = 0 := rfl

theorem Cq.ext_iff {a b : Cq} : a = b ↔ a.re = b.re ∧ a.im = b.im := by
  constructor
  · intro h; subst h; exact ⟨rfl, rfl⟩
  · intro ⟨h1, h2⟩; cases a; cases b; simp_all

theorem Cq.zero_mul (a : Cq) : (0 : Cq) * a = 0 := by
  show (⟨0 * a.re - 0 * a.im, 0 * a.im + 0 * a.re⟩ : Cq) = ⟨0, 0⟩
  simp

theorem Cq.mul_zero (a : Cq) : a * (0 : Cq) = 0 := by
  show (⟨a.re * 0 - a.im * 0, a.re * 0 + a.im * 0⟩ : Cq) = ⟨0, 0⟩
  simp

theorem Cq.smulR_zero_left (a : Cq) : Cq.smulR 0 a = 0 := by
  simp [Cq.smulR]; rfl

theorem csum_zeros (l : List Cq) (h : ∀ x ∈ l, x = 0) : csum l = 0 := by
  induction l with
  | nil => rfl
  | cons a t ih =>
    have ha : a = 0 := h a (List.mem_cons_self a t)
    have ht := ih (fun x hx => h x (List.mem_cons_of_mem a hx))
    show a + csum t = 0
    rw [ha, ht]
    show (⟨0 + 0, 0 + 0⟩ : Cq) = ⟨0, 0⟩
    simp

theorem zip_map_re_im (l : List Cq) :
    ((l.map Cq.re).zip (l.map Cq.im)).map (fun p => (⟨p.1, p.2⟩ : Cq)) = l := by
  induction l with
  | nil => rfl
  | cons a t ih => simp [ih]

theorem map_re_zip (x y : List ℚ) (h : x.length = y.length) :
    ((x.zip y).map (fun p => (⟨p.1, p.2⟩ : Cq))).map Cq.re = x := by
  induction x generalizing y with
  | nil => simp
  | cons a t ih =>
    cases y with
    | nil => simp at h
    | cons b u =>
      simp only [List.zip_cons_cons, List.map_cons, List.cons.injEq]
      exact ⟨trivial, ih u (by simpa using h)⟩

theorem map_im_zip (x y : List ℚ) (h : x.length = y.length) :
    ((x.zip y).map (fun p => (⟨p.1, p.2⟩ : Cq))).map Cq.im = y := by
  induction x generalizing y with
  | nil => cases y with
    | nil => simp
    | cons b u => simp at h
  | cons a t ih =>
    cases y with
    | nil => simp at h
    | cons b u =>
      simp only [List.zip_cons_cons, List.map_cons, List.cons.injEq]
      exact ⟨trivial, ih u (by simpa using h)⟩

/-- C3: the real/imaginary split and unsplit of the eigenvalue vector are
exact inverses: unpacking after packing recovers any complex vector, and
packing after unpacking recovers any even-length real vector. -/
theorem split_unsplit_roundtrip :
    (∀ omegas : List Cq, unpack_alphas (pack_omegas omegas) = omegas) ∧
    (∀ (alphas : List ℚ) (r : ℕ), alphas.length = 2 * r →
      pack_omegas (unpack_alphas alphas) = alphas) := by
  constructor
  · intro omegas
    unfold unpack_alphas pack_omegas
    have hlen : (omegas.map Cq.re ++ omegas.map Cq.im).length / 2 = omegas.length := by
      simp [List.length_append]
      omega
    have h1 : (omegas.map Cq.re ++ omegas.map Cq.im).take omegas.length
        = omegas.map Cq.re := List.take_left' (by simp)
    have h2 : (omegas.map Cq.re ++ omegas.map Cq.im).drop omegas.length
        = omegas.map Cq.im := List.drop_left' (by simp)
    rw [hlen, h1, h2, zip_map_re_im]
  · intro alphas r hlen
    unfold unpack_alphas pack_omegas
    have hl : alphas.length / 2 = r := by omega
    rw [hl]
    have hx : (alphas.take r).length = (alphas.drop r).length := by
      simp [List.length_take, List.length_drop]; omega
    rw [map_re_zip _ _ hx, map_im_zip _ _ hx]
    exact List.take_append_drop r alphas

/-- Witness for C3 at a concrete even-length vector. -/
theorem split_unsplit_roundtrip_witness :
    ([1, 2, 3, 4] : List ℚ).length = 2 * 2 ∧
    pack_omegas (unpack_alphas [1, 2, 3, 4]) = [1, 2, 3, 4] :=
  ⟨by decide, split_unsplit_roundtrip.2 [1, 2, 3, 4] 2 (by decide)⟩

theorem svht_count_pos (sigma_svd : List ℚ) (tau : ℚ) (h : sigma_svd ≠ []) :
    1 ≤ svht_count sigma_svd tau := by
  unfold svht_count
  split
  · exact List.length_pos.mpr h
  · omega

theorem svht_pos (sigma_svd : List ℚ) (rows cols : ℕ) (sigma : Option ℚ)
    (sqrtO : ℚ → ℚ) (h : sigma_svd ≠ []) :
    1 ≤ svht sigma_svd rows cols sigma sqrtO := by
  unfold svht
  exact svht_count_pos _ _ h

/-- C7: for a non-empty descending non-negative singular-value vector and any
rank specifier that does not raise (fraction in (0,1), the sentinel 0, or at
least 1), the computed rank lies in [1, len]; an integer specifier r with
r at least 1 yields exactly min r len; a negative specifier raises. -/
theorem compute_rank_spec :
    (∀ (sigma_x : List ℚ) (rows cols : ℕ) (rank : ℚ) (sigma : Option ℚ) (sqrtO : ℚ → ℚ),
      sigma_x ≠ [] → sigma_x.Pairwise (· ≥ ·) → (∀ x ∈ sigma_x, 0 ≤ x) →
      ((0 < rank ∧ rank < 1) ∨ rank = 0 ∨ 1 ≤ rank) →
      ∃ r, compute_rank sigma_x rows cols rank sigma sqrtO = Except.ok r ∧
        1 ≤ r ∧ r ≤ sigma_x.length) ∧
    (∀ (sigma_x : List ℚ) (rows cols : ℕ) (r : ℕ) (sigma : Option ℚ) (sqrtO : ℚ → ℚ),
      1 ≤ r →
      compute_rank sigma_x rows cols (r : ℚ) sigma sqrtO =
        Except.ok (min r sigma_x.length)) ∧
    (∀ (sigma_x : List ℚ) (rows cols : ℕ) (rank : ℚ) (sigma : Option ℚ) (sqrtO : ℚ → ℚ),
      rank < 0 →
      isErr (compute_rank sigma_x rows cols rank sigma sqrtO) = true) := by
  refine ⟨?_, ?_, ?_⟩
  · intro sigma_x rows cols rank sigma sqrtO hne _ _ hspec
    have hlen : 1 ≤ sigma_x.length := List.length_pos.mpr hne
    rcases hspec with h01 | h0 | h1
    · unfold compute_rank
      rw [if_pos h01]
      exact ⟨_, rfl, le_min (by omega) hlen, min_le_right _ _⟩
    · subst h0
      unfold compute_rank
      rw [if_neg (by simp), if_pos rfl]
      exact ⟨_, rfl, le_min (svht_pos _ _ _ _ _ hne) hlen, min_le_right _ _⟩
    · unfold compute_rank
      rw [if_neg (by rintro ⟨_, hlt⟩; linarith), if_neg (by intro h0; linarith),
        if_pos h1]
      refine ⟨_, rfl, le_min ?_ hlen, min_le_right _ _⟩
      have hfl : (1 : ℤ) ≤ ⌊rank⌋ := by
        rw [Int.le_floor]; exact_mod_cast h1
      omega
  · intro sigma_x rows cols r sigma sqrtO hr
    have hcast : (1 : ℚ) ≤ (r : ℚ) := by exact_mod_cast hr
    unfold compute_rank
    rw [if_neg (by rintro ⟨_, hlt⟩; linarith),
      if_neg (by intro h0; rw [Nat.cast_eq_zero] at h0; omega), if_pos hcast]
    simp [Except.map, Int.floor_natCast]
  · intro sigma_x rows cols rank sigma sqrtO hneg
    unfold compute_rank
    rw [if_neg (by rintro ⟨hgt, _⟩; linarith),
      if_neg (by intro h0; rw [h0] at hneg; exact absurd hneg (by norm_num)),
      if_neg (by intro h1; linarith)]
    rfl

/-- Witness for C7 at concrete inputs: a fractional, an integer, and a
negative rank specifier over the singular values [2, 1]. -/
theorem compute_rank_spec_witness :
    (∃ r, compute_rank [2, 1] 3 2 (1 / 2) none id = Except.ok r ∧
      1 ≤ r ∧ r ≤ ([2, 1] : List ℚ).length) ∧
    compute_rank [2, 1] 3 2 ((3 : ℕ) : ℚ) none id =
      Except.ok (min 3 ([2, 1] : List ℚ).length) ∧
    isErr (compute_rank [2, 1] 3 2 (-1) none id) = true :=
  ⟨compute_rank_spec.1 [2, 1] 3 2 (1 / 2) none id (by decide) (by decide) (by decide)
      (Or.inl (by norm_num)),
    compute_rank_spec.2.1 [2, 1] 3 2 3 none id (by decide),
    compute_rank_spec.2.2 [2, 1] 3 2 (-1) none id (by norm_num)⟩

/-- C4: on a 2-d array with m columns and a compression fraction in (0,1),
`select_best_samples_fast` returns exactly `int(m * (1 - c))` indices, all
distinct and inside [0, m) (given the scipy pivoted-QR contract that the
pivot array is a permutation of 0..m-1); a fraction outside (0,1) or an
array that is not 2-d raises an invalid-argument error. -/
theorem select_best_samples_fast_spec :
    (∀ (data : CArr) (comp : ℚ) (qrO : CArr → List ℕ),
      data.shape.length = 2 → 0 < comp → comp < 1 →
      (qrO data).Perm (List.range (data.shape.getLastD 0)) →
      ∃ idx, select_best_samples_fast data comp qrO = Except.ok idx ∧
        idx.length = (⌊(data.shape.getLastD 0 : ℚ) * (1 - comp)⌋).toNat ∧
        idx.Nodup ∧ ∀ i ∈ idx, i < data.shape.getLastD 0) ∧
    (∀ (data : CArr) (comp : ℚ) (qrO : CArr → List ℕ),
      ¬(0 < comp ∧ comp < 1) →
      isErr (select_best_samples_fast data comp qrO) = true) ∧
    (∀ (data : CArr) (comp : ℚ) (qrO : CArr → List ℕ),
      data.shape.length ≠ 2 →
      isErr (select_best_samples_fast data comp qrO) = true) := by
  refine ⟨?_, ?_, ?_⟩
  · intro data comp qrO hshape hc0 hc1 hperm
    set m := data.shape.getLastD 0 with hm
    have hlenqr : (qrO data).length = m := by
      rw [hperm.length_eq, List.length_range]
    have hn : (⌊(m : ℚ) * (1 - comp)⌋).toNat ≤ m := by
      have hle : (m : ℚ) * (1 - comp) ≤ (m : ℚ) := by
        have : (0 : ℚ) ≤ (m : ℚ) := by positivity
        nlinarith
      have := Int.floor_le_floor hle
      rw [Int.floor_natCast] at this
      omega
    refine ⟨(qrO data).take ((⌊(m : ℚ) * (1 - comp)⌋).toNat), ?_, ?_, ?_, ?_⟩
    · unfold select_best_samples_fast
      rw [if_neg (not_not.mpr hshape), if_neg (not_not.mpr ⟨hc0, hc1⟩)]
    · rw [List.length_take, hlenqr]
      omega
    · exact (List.take_sublist _ _).nodup (hperm.nodup_iff.mpr (List.nodup_range m))
    · intro i hi
      have : i ∈ qrO data := List.mem_of_mem_take hi
      have : i ∈ List.range m := hperm.mem_iff.mp this
      exact List.mem_range.mp this
  · intro data comp qrO hc
    unfold select_best_samples_fast
    by_cases h2 : data.shape.length = 2
    · rw [if_neg (by omega), if_pos hc]
      rfl
    · rw [if_pos h2]
      rfl
  · intro data comp qrO h2
    unfold select_best_samples_fast
    rw [if_pos h2]
    rfl

/-- Witness for C4 on a 2-by-5 array with compression 2/5 and a concrete
pivot permutation. -/
theorem select_best_samples_fast_spec_witness :
    (∃ idx, select_best_samples_fast ⟨[2, 5], []⟩ (2 / 5) (fun _ => [4, 2, 0, 1, 3]) =
        Except.ok idx ∧
      idx.length = (⌊((⟨[2, 5], []⟩ : CArr).shape.getLastD 0 : ℚ) * (1 - 2 / 5)⌋).toNat ∧
      idx.Nodup ∧ ∀ i ∈ idx, i < (⟨[2, 5], []⟩ : CArr).shape.getLastD 0) ∧
    isErr (select_best_samples_fast ⟨[2, 5], []⟩ (3 : ℚ) (fun _ => [4, 2, 0, 1, 3])) = true ∧
    isErr (select_best_samples_fast ⟨[2, 5, 1], []⟩ (2 / 5) (fun _ => [4, 2, 0, 1, 3])) = true :=
  ⟨select_best_samples_fast_spec.1 ⟨[2, 5], []⟩ (2 / 5) (fun _ => [4, 2, 0, 1, 3])
      (by decide) (by norm_num) (by norm_num) (by decide),
    select_best_samples_fast_spec.2.1 ⟨[2, 5], []⟩ 3 (fun _ => [4, 2, 0, 1, 3])
      (by norm_num),
    select_best_samples_fast_spec.2.2 ⟨[2, 5, 1], []⟩ (2 / 5) (fun _ => [4, 2, 0, 1, 3])
      (by decide)⟩

theorem pinv_reciprocal_zero (s : List ℚ) (i : ℕ) (h : s.getD i 0 = 0) :
    (pinv_reciprocal s).getD i 0 = 0 := by
  induction s generalizing i with
  | nil => simp [pinv_reciprocal]
  | cons a t ih =>
    cases i with
    | zero =>
      simp only [List.getD_cons_zero] at h
      simp [pinv_reciprocal, h]
    | succ n =>
      simp only [List.getD_cons_succ] at h
      simpa [pinv_reciprocal] using ih n h

/-- C8: the residual evaluation is total: for every trial parameter vector,
time vector, and data matrix it returns a real residual vector of the full
length 2*m*n; reciprocals of exactly-zero singular values are zeroed out
instead of divided; and when the backend reports all singular values zero,
the cached pseudo-inverse coefficient matrix degrades to exactly zero. -/
theorem residual_total_and_degenerate :
    (∀ (alphas time : List ℚ) (data : GM Cq) (svdO : GM Cq → GM Cq × List ℚ × GM Cq)
      (cexp : Cq → Cq),
      (compute_dmd_rho alphas time data svdO cexp).1.length = 2 * (data.nr * data.nc)) ∧
    (∀ (s : List ℚ) (i : ℕ), s.getD i 0 = 0 → (pinv_reciprocal s).getD i 0 = 0) ∧
    (∀ (alphas time : List ℚ) (data : GM Cq) (svdO : GM Cq → GM Cq × List ℚ × GM Cq)
      (cexp : Cq → Cq),
      (∀ x ∈ (svdO (rho_phi alphas time cexp)).2.1, x = 0) →
      ∀ i j, (compute_dmd_rho alphas time data svdO cexp).2.b_matrix.ent i j = 0) := by
  refine ⟨?_, pinv_reciprocal_zero, ?_⟩
  · intro alphas time data svdO cexp
    simp only [compute_dmd_rho, ravelGM, msub, List.length_append, List.length_map,
      List.length_range]
    omega
  · intro alphas time data svdO cexp hz i j
    have hs : ∀ k, ((svdO (rho_phi alphas time cexp)).2.1).getD k 0 = 0 := by
      intro k
      rcases lt_or_ge k ((svdO (rho_phi alphas time cexp)).2.1).length with hk | hk
      · rw [List.getD_eq_getElem _ _ hk]
        exact hz _ (List.getElem_mem hk)
      · exact List.getD_eq_default _ _ hk
    have hsi : ∀ k, (pinv_reciprocal ((svdO (rho_phi alphas time cexp)).2.1)).getD k 0 = 0 :=
      fun k => pinv_reciprocal_zero _ k (hs k)
    simp only [compute_dmd_rho, mmul, scaleColsR]
    apply csum_zeros
    intro x hx
    rcases List.mem_map.mp hx with ⟨k, _, hk⟩
    rw [← hk, hsi k, Cq.smulR_zero_left, Cq.zero_mul]

/-- Witness for C8: a degenerate all-zero singular spectrum still yields a
full-length residual and an exactly zero coefficient matrix. -/
theorem residual_total_and_degenerate_witness :
    (([0] : List ℚ).getD 0 0 = 0 ∧ (pinv_reciprocal [0]).getD 0 0 = 0) ∧
    ((∀ x ∈ (svd_zero_oracle (rho_phi [0, 0] [1] id)).2.1, x = 0) ∧
      (compute_dmd_rho [0, 0] [1] one_matrix svd_zero_oracle id).2.b_matrix.ent 0 0 = 0) :=
  ⟨⟨by decide, residual_total_and_degenerate.2.1 [0] 0 (by decide)⟩,
    ⟨by simp [svd_zero_oracle],
      residual_total_and_degenerate.2.2 [0, 0] [1] one_matrix svd_zero_oracle id
        (by simp [svd_zero_oracle]) 0 0⟩⟩

/-- C6: for a real-split parameter vector of length 2r the Jacobian is a real
matrix of shape (2*m*n, 2r), and the column for the imaginary part of each
parameter j is the column for its real part rotated by multiplication by i:
its top half is the negated bottom half of column j and its bottom half is
the top half of column j. -/
theorem jacobian_shape_and_rotation :
    ∀ (alphas time : List ℚ) (data : GM Cq) (oh : OptHelper) (r : ℕ),
      alphas.length = 2 * r →
      (compute_dmd_jac alphas time data oh).nr = 2 * (data.nr * data.nc) ∧
      (compute_dmd_jac alphas time data oh).nc = 2 * r ∧
      (∀ j i, j < r → i < data.nr * data.nc →
        (compute_dmd_jac alphas time data oh).ent i (r + j) =
          -((compute_dmd_jac alphas time data oh).ent (data.nr * data.nc + i) j) ∧
        (compute_dmd_jac alphas time data oh).ent (data.nr * data.nc + i) (r + j) =
          (compute_dmd_jac alphas time data oh).ent i j) := by
  intro alphas time data oh r hlen
  have hl : alphas.length / 2 = r := by omega
  refine ⟨rfl, hlen, ?_⟩
  intro j i hj hi
  have e1 : r + j - r = j := by omega
  have e2 : data.nr * data.nc + i - data.nr * data.nc = i := by omega
  constructor
  · simp only [compute_dmd_jac, hl, e1, e2]
    split_ifs <;> first | rfl | omega
  · simp only [compute_dmd_jac, hl, e1, e2]
    split_ifs <;> first | rfl | omega

/-- Witness for C6 on a concrete length-2 parameter vector and a 1-by-1 data
matrix. -/
theorem jacobian_shape_and_rotation_witness :
    ([0, 0] : List ℚ).length = 2 * 1 ∧
    (compute_dmd_jac [0, 0] [] one_matrix default).nc = 2 * 1 :=
  ⟨by decide,
    (jacobian_shape_and_rotation [0, 0] [] one_matrix default 1 (by decide)).2.1⟩

theorem varprodmd_solve_tail_spec (use_proj : Bool) (u_r : GM Cq) (omegas : List Cq)
    (omegas_in : List ℚ) (indices : List ℕ) (data_in : GM Cq) (time_in : List ℚ)
    (orc : Oracles) :
    (Ev.warnEv ∈ (varprodmd_solve_tail use_proj u_r omegas omegas_in indices data_in
        time_in orc).1 ↔ data_in.nc < omegas.length) ∧
    Ev.solveEv ∈ (varprodmd_solve_tail use_proj u_r omegas omegas_in indices data_in
      time_in orc).1 ∧
    (varprodmd_solve_tail use_proj u_r omegas omegas_in indices data_in time_in
      orc).2.indices = indices ∧
    (varprodmd_solve_tail use_proj u_r omegas omegas_in indices data_in time_in
      orc).2.omegas.length = omegas.length := by
  unfold varprodmd_solve_tail
  by_cases h : data_in.nc < omegas.length
  · rw [if_pos h]
    refine ⟨?_, ?_, rfl, by simp⟩
    · simp [h]
    · simp
  · rw [if_neg h]
    refine ⟨?_, ?_, rfl, by simp⟩
    · simp [h]
    · simp

theorem vpany_finish_ok_trace (use_proj : Bool) (u_r : GM Cq) (omegas : List Cq)
    (indices : List ℕ) (data_in2 : GM Cq) (time_in : List ℚ) (orc : Oracles)
    (tr : List Ev) (res : VarProAny) (h_nc : data_in2.nc = indices.length)
    (h : vpany_finish use_proj u_r omegas indices data_in2 time_in orc =
      (tr, Except.ok res)) :
    (Ev.warnEv ∈ tr ↔ res.indices.length < res.omegas.length) ∧ Ev.solveEv ∈ tr := by
  obtain ⟨hw, hs, hi, hl⟩ := varprodmd_solve_tail_spec use_proj u_r omegas
    (pack_omegas omegas) indices data_in2 time_in orc
  unfold vpany_finish at h
  simp only [Prod.mk.injEq, Except.ok.injEq] at h
  obtain ⟨htr, hres⟩ := h
  subst htr
  subst hres
  constructor
  · rw [List.mem_append, hw, hi, hl, h_nc]
    simp
  · simp [hs]

theorem vpany_compress_ok_trace (data : CArr) (time : RArr) (use_proj : Bool)
    (compression : ℚ) (orc : Oracles) (r : ℕ) (omegas : List Cq) (tr : List Ev)
    (res : VarProAny)
    (h : vpany_compress data time use_proj compression orc r omegas =
      (tr, Except.ok res)) :
    (Ev.warnEv ∈ tr ↔ res.indices.length < res.omegas.length) ∧ Ev.solveEv ∈ tr := by
  unfold vpany_compress at h
  split at h
  · split at h
    · simp [Prod.ext_iff] at h
    · exact vpany_finish_ok_trace _ _ _ _ _ _ _ _ _ (by simp [selectCols]) h
  · exact vpany_finish_ok_trace _ _ _ _ _ _ _ _ _ (by simp) h

theorem vpany_eig_stage_ok_trace (data : CArr) (time : RArr) (use_proj : Bool)
    (compression : ℚ) (orc : Oracles) (r : ℕ) (tr : List Ev) (res : VarProAny)
    (h : vpany_eig_stage data time use_proj compression orc r = (tr, Except.ok res)) :
    (Ev.warnEv ∈ tr ↔ res.indices.length < res.omegas.length) ∧ Ev.solveEv ∈ tr := by
  unfold vpany_eig_stage at h
  split at h
  · simp [Prod.ext_iff] at h
  · exact vpany_compress_ok_trace _ _ _ _ _ _ _ _ _ h

theorem compute_varprodmd_any_ok_trace :
    ∀ (data : CArr) (time : RArr) (rank : ℚ) (use_proj : Bool) (compression : ℚ)
      (orc : Oracles) (tr : List Ev) (res : VarProAny),
      compute_varprodmd_any data time rank use_proj compression orc =
        (tr, Except.ok res) →
      (Ev.warnEv ∈ tr ↔ res.indices.length < res.omegas.length) ∧ Ev.solveEv ∈ tr := by
  intro data time rank use_proj compression orc tr res h
  unfold compute_varprodmd_any at h
  split at h
  · simp [Prod.ext_iff] at h
  · split at h
    · simp [Prod.ext_iff] at h
    · split at h
      · simp [Prod.ext_iff] at h
      · exact vpany_eig_stage_ok_trace _ _ _ _ _ _ _ _ h

/-! ## C5: the underdetermined-system warning -/

/-- C5 (amended): in every successful run the underdetermined warning is
emitted if and only if the post-compression sample count is below the number
of complex eigenvalues r (the code compares against r, not against the 2r
free real parameters of the split optimization), and the run still reaches
the solver either way. -/
theorem underdetermined_warning_spec :
    ∀ (data : CArr) (time : RArr) (rank : ℚ) (use_proj : Bool) (compression : ℚ)
      (orc : Oracles) (tr : List Ev) (res : VarProAny),
      compute_varprodmd_any data time rank use_proj compression orc =
        (tr, Except.ok res) →
      ((Ev.warnEv ∈ tr ↔ res.indices.length < res.omegas.length) ∧ Ev.solveEv ∈ tr) :=
  compute_varprodmd_any_ok_trace

/-- C5 counterexample to the claim as stated: this run keeps 3 samples with
r = 2 eigenvalues, so the sample count is below the 2r = 4 free real
parameters of the optimization, yet no warning is emitted (the code warns
only below r) and the run succeeds. -/
theorem underdetermined_warning_threshold_cex :
    isErr c5x_run.2 = false ∧
    (okD c5x_run.2).indices.length = 3 ∧
    (okD c5x_run.2).omegas.length = 2 ∧
    3 < 2 * 2 ∧
    Ev.warnEv ∉ c5x_run.1 := by decide

/-- Witness for C5 at a concrete run. -/
theorem underdetermined_warning_spec_witness :
    (Ev.warnEv ∈ c5w_run.1 ↔
      (okD c5w_run.2).indices.length < (okD c5w_run.2).omegas.length) ∧
    Ev.solveEv ∈ c5w_run.1 :=
  underdetermined_warning_spec ⟨[2, 1], [⟨1, 0⟩, ⟨1, 0⟩]⟩ ⟨[1], [0]⟩ 2 true 0 oracle_c
    c5w_run.1 (okD c5w_run.2) rfl

/-! ## C2: invalid sorted_eigs string -/

/-- C2 (amended): an unsupported `sorted_eigs` string does raise an
invalid-argument error from `compute_operator`, but only after the numerical
work: whenever the underlying `compute_varprodmd_any` run succeeds, the
operator call returns that run's full trace (which includes the solver
event) together with the invalid-argument error raised by the sorting
block. -/
theorem sorted_eigs_invalid_error_after_solve :
    ∀ (X : CArr) (time : RArr) (svd_rank : ℚ) (exact : Bool) (compression : ℚ)
      (orc : Oracles) (s : String) (tr : List Ev) (res : VarProAny),
      s ≠ "auto" → s ≠ "real" → s ≠ "imag" → s ≠ "abs" →
      compute_varprodmd_any X time svd_rank (!exact) compression orc =
        (tr, Except.ok res) →
      compute_operator X time svd_rank exact (SortPolicy.ofStr s) compression orc =
        (tr, Except.error (s ++ " not supported!")) ∧ Ev.solveEv ∈ tr := by
  intro X time svd_rank exact compression orc s tr res h1 h2 h3 h4 hrun
  refine ⟨?_, (compute_varprodmd_any_ok_trace _ _ _ _ _ _ _ _ hrun).2⟩
  have hkey : sort_key s res.omegas orc.sqrtQ = Except.error (s ++ " not supported!") := by
    unfold sort_key
    rw [if_neg h1, if_neg h2, if_neg h3, if_neg h4]
  unfold compute_operator
  rw [hrun]
  simp only [operator_post, normalize_policy, sort_eigenvalues, hkey]

/-- C2 counterexample to the claim as stated: with the unsupported string
"bogus" the invalid-argument error is raised, but the trace shows the SVD
and the nonlinear solve already ran before it: the check is not performed
before the numerical work. -/
theorem sorted_eigs_invalid_not_fail_fast_cex :
    errMsg c2x_run.2 = some "bogus not supported!" ∧
    Ev.solveEv ∈ c2x_run.1 ∧ Ev.svdEv ∈ c2x_run.1 := by decide

/-- Witness for C2 at a concrete run with the unsupported string "bogus". -/
theorem sorted_eigs_invalid_error_after_solve_witness :
    compute_operator ⟨[1, 2], [⟨1, 0⟩, ⟨1, 0⟩]⟩ ⟨[2], [0, 1]⟩ 1 false
        (SortPolicy.ofStr "bogus") 0 oracle_c =
      (c2w_run.1, Except.error ("bogus" ++ " not supported!")) ∧
    Ev.solveEv ∈ c2w_run.1 :=
  sorted_eigs_invalid_error_after_solve ⟨[1, 2], [⟨1, 0⟩, ⟨1, 0⟩]⟩ ⟨[2], [0, 1]⟩ 1 false
    0 oracle_c "bogus" c2w_run.1 (okD c2w_run.2) (by decide) (by decide) (by decide)
    (by decide) rfl

/-! ## C1: the "auto" sorting policy -/

/-- C1: evaluation of the sorting block at the failing input
Omega = [1, -2] (as complex values) under the "auto" policy.  The code
computes the variances of the raw signed real and imaginary parts (its own
docstring promises the variances of their absolute values), here
var(Re) = 9/4 beats var(|Omega|) = 1/4, so the signed real part becomes the
sort key and the output order stays [1, -2] - even though the magnitude of
the first returned eigenvalue is strictly below that of the second, so the
output is not descending in any of the three documented absolute-value
keys (which would give [-2, 1]). -/
theorem varprodmd_auto_sort_signed_parts :
    (okOpt (sort_eigenvalues "auto" [⟨1, 0⟩, ⟨-2, 0⟩] one_matrix [5, 6] nat_sqrtq)).map
        (fun out => (out.1, out.2.2)) =
      some ([⟨1, 0⟩, ⟨-2, 0⟩], [5, 6]) ∧
    np_cabs nat_sqrtq ⟨1, 0⟩ < np_cabs nat_sqrtq ⟨-2, 0⟩ ∧
    np_var (([⟨1, 0⟩, ⟨-2, 0⟩] : List Cq).map Cq.re) ≠
      np_var (([⟨1, 0⟩, ⟨-2, 0⟩] : List Cq).map (fun z => |z.re|)) := by
  refine ⟨?_, ?_, ?_⟩ <;> with_unfolding_all decide

/-! ## C10: degenerate compression falls back to all samples -/

theorem compute_rank_ok_of_nonneg (sigma_x : List ℚ) (rows cols : ℕ) (rank : ℚ)
    (sigma : Option ℚ) (sqrtO : ℚ → ℚ) (h : ¬ rank < 0) :
    ∃ r, compute_rank sigma_x rows cols rank sigma sqrtO = Except.ok r := by
  unfold compute_rank
  by_cases h01 : 0 < rank ∧ rank < 1
  · rw [if_pos h01]
    exact ⟨_, rfl⟩
  · rw [if_neg h01]
    by_cases h0 : rank = 0
    · rw [if_pos h0]
      exact ⟨_, rfl⟩
    · rw [if_neg h0]
      have h1 : 1 ≤ rank := by
        push_neg at h01 h
        rcases lt_or_eq_of_le h with hgt | heq
        · exact h01 hgt
        · exact absurd heq.symm h0
      rw [if_pos h1]
      exact ⟨_, rfl⟩

theorem compute_dmd_ev_nat_ok (y z : GM Cq) (r : ℕ) (orc : Oracles) :
    ∃ v, compute_dmd_ev y z (r : ℚ) orc = Except.ok v := by
  unfold compute_dmd_ev
  obtain ⟨k, hk⟩ := compute_rank_ok_of_nonneg (orc.svd y).2.1 y.nr y.nc (r : ℚ) none
    orc.sqrtQ (not_lt.mpr (by positivity))
  rw [hk]
  exact ⟨_, rfl⟩

/-- C10: for a 2-d matrix with m columns and a compression fraction c in
(0, 1) with floor(m * (1 - c)) = 0, `select_best_samples_fast` returns an
empty index list without raising, and a pipeline run with that compression
silently falls back to the identity index set 0..m-1 (using all samples) and
still succeeds.  The hypothesis on `orc.svd` is the backend contract that
the economy Vt factor has one column per data column. -/
theorem compression_empty_selection_fallback :
    ∀ (data : CArr) (time : RArr) (rank : ℚ) (use_proj : Bool) (c : ℚ) (orc : Oracles),
      data.shape.length = 2 → time.shape.length = 1 → ¬ rank < 0 →
      0 < c → c < 1 →
      (orc.svd data.toGM).2.2.nc = data.shape.getD 1 0 →
      ⌊((data.shape.getD 1 0 : ℕ) : ℚ) * (1 - c)⌋ = 0 →
      (∀ a : CArr, a.shape.length = 2 →
        ⌊((a.shape.getLastD 0 : ℕ) : ℚ) * (1 - c)⌋ = 0 →
        select_best_samples_fast a c orc.qrPivots = Except.ok []) ∧
      isErr (compute_varprodmd_any data time rank use_proj c orc).2 = false ∧
      (okD (compute_varprodmd_any data time rank use_proj c orc).2).indices =
        List.range (data.shape.getD 1 0) := by
  intro data time rank use_proj c orc h2 h1 hrk hc0 hc1 hvt hm
  have hsel_gen : ∀ a : CArr, a.shape.length = 2 →
      ⌊((a.shape.getLastD 0 : ℕ) : ℚ) * (1 - c)⌋ = 0 →
      select_best_samples_fast a c orc.qrPivots = Except.ok [] := by
    intro a ha hfl
    unfold select_best_samples_fast
    rw [if_neg (not_not.mpr ha), if_neg (not_not.mpr ⟨hc0, hc1⟩), hfl]
    rfl
  refine ⟨hsel_gen, ?_⟩
  obtain ⟨r, hr⟩ := compute_rank_ok_of_nonneg (orc.svd data.toGM).2.1
    (data.shape.getD 0 0) (data.shape.getD 1 0) rank none orc.sqrtQ hrk
  obtain ⟨v, hv⟩ := compute_dmd_ev_nat_ok (vpany_y_in data use_proj orc r)
    (vpany_z_in data time use_proj orc r) r orc
  have hnc : (vpany_data_in data use_proj orc r).nc = data.shape.getD 1 0 := by
    cases hup : use_proj with
    | true => simp [vpany_data_in, scaleRowsR, conjT, takeRows, hvt]
    | false => simp [vpany_data_in, CArr.toGM]
  have hstep : compute_varprodmd_any data time rank use_proj c orc =
      vpany_eig_stage data time use_proj c orc r := by
    unfold compute_varprodmd_any
    rw [if_neg (not_not.mpr h2), if_neg (not_not.mpr h1), hr]
  have hstep2 : vpany_eig_stage data time use_proj c orc r =
      vpany_compress data time use_proj c orc r v := by
    unfold vpany_eig_stage
    rw [hv]
  have hsel : select_best_samples_fast ⟨[(vpany_data_in data use_proj orc r).nr,
      (vpany_data_in data use_proj orc r).nc], ravelGM (vpany_data_in data use_proj orc r)⟩
      c orc.qrPivots = Except.ok [] := by
    apply hsel_gen
    · rfl
    · show ⌊(((vpany_data_in data use_proj orc r).nc : ℕ) : ℚ) * (1 - c)⌋ = 0
      rw [hnc]
      exact hm
  have hstep3 : vpany_compress data time use_proj c orc r v =
      vpany_finish use_proj (takeCols (orc.svd data.toGM).1 r) v
        (List.range (data.shape.getD 1 0))
        (selectCols (vpany_data_in data use_proj orc r)
          (List.range (data.shape.getD 1 0)))
        ((List.range (data.shape.getD 1 0)).map (fun i => time.data.getD i 0)) orc := by
    unfold vpany_compress
    rw [if_pos hc0, hsel]
    simp [hnc]
  rw [hstep, hstep2, hstep3]
  unfold vpany_finish
  exact ⟨rfl, (varprodmd_solve_tail_spec _ _ _ _ _ _ _ _).2.2.1⟩

/-- Witness for C10 on a 1-by-2 matrix with compression 3/5 (so
floor(2 * 2/5) = 0). -/
theorem compression_empty_selection_fallback_witness :
    select_best_samples_fast ⟨[1, 2], [⟨1, 0⟩, ⟨1, 0⟩]⟩ (3 / 5) oracle_c.qrPivots =
      Except.ok [] ∧
    isErr (compute_varprodmd_any ⟨[1, 2], [⟨1, 0⟩, ⟨1, 0⟩]⟩ ⟨[2], [0, 1]⟩ 1 false
      (3 / 5) oracle_c).2 = false ∧
    (okD (compute_varprodmd_any ⟨[1, 2], [⟨1, 0⟩, ⟨1, 0⟩]⟩ ⟨[2], [0, 1]⟩ 1 false
      (3 / 5) oracle_c).2).indices = List.range 2 := by
  obtain ⟨hsel, hrest⟩ := compression_empty_selection_fallback
    ⟨[1, 2], [⟨1, 0⟩, ⟨1, 0⟩]⟩ ⟨[2], [0, 1]⟩ 1 false (3 / 5) oracle_c
    (by decide) (by decide) (by norm_num) (by norm_num) (by norm_num) rfl
    (by with_unfolding_all decide)
  exact ⟨hsel ⟨[1, 2], [⟨1, 0⟩, ⟨1, 0⟩]⟩ (by decide) (by with_unfolding_all decide), hrest⟩

/-- C9: on an unfit instance every post-fit accessor (ssr, selected_samples,
opt_stats, dynamics, frequency, growth_rate) and forecast raises a
not-fitted error; after any successful fit none of them raises. -/
theorem accessors_not_fitted_spec :
    (∀ (s : VarProDMDSt) (sqrtO : ℚ → ℚ) (piQ : ℚ) (cexp : Cq → Cq) (tq : List ℚ),
      s.fitted = false →
      isErr (vpd_ssr s sqrtO) = true ∧ isErr (vpd_selected_samples s) = true ∧
      isErr (vpd_opt_stats s) = true ∧ isErr (vpd_dynamics s cexp) = true ∧
      isErr (vpd_frequency s piQ) = true ∧ isErr (vpd_growth_rate s) = true ∧
      isErr (vpd_forecast s tq cexp) = true) ∧
    (∀ (X : CArr) (time : RArr) (svd_rank : ℚ) (exact : Bool)
      (sorted_eigs : SortPolicy) (compression : ℚ) (orc : Oracles) (tr : List Ev)
      (s : VarProDMDSt),
      fit_varprodmd X time svd_rank exact sorted_eigs compression orc =
        (tr, Except.ok s) →
      ∀ (sqrtO : ℚ → ℚ) (piQ : ℚ) (cexp : Cq → Cq) (tq : List ℚ),
      isErr (vpd_ssr s sqrtO) = false ∧ isErr (vpd_selected_samples s) = false ∧
      isErr (vpd_opt_stats s) = false ∧ isErr (vpd_dynamics s cexp) = false ∧
      isErr (vpd_frequency s piQ) = false ∧ isErr (vpd_growth_rate s) = false ∧
      isErr (vpd_forecast s tq cexp) = false) := by
  constructor
  · intro s sqrtO piQ cexp tq hf
    refine ⟨?_, ?_, ?_, ?_, ?_, ?_, ?_⟩ <;>
      simp [vpd_ssr, vpd_selected_samples, vpd_opt_stats, vpd_dynamics, vpd_frequency,
        vpd_growth_rate, vpd_forecast, dmd_eigs, dmd_amplitudes, hf, isErr, Except.map]
  · intro X time svd_rank exact sorted_eigs compression orc tr s hfit sqrtO piQ cexp tq
    have hf : s.fitted = true := by
      unfold fit_varprodmd at hfit
      split at hfit
      · simp [Prod.ext_iff] at hfit
      · simp only [Prod.mk.injEq, Except.ok.injEq] at hfit
        rw [← hfit.2]
    refine ⟨?_, ?_, ?_, ?_, ?_, ?_, ?_⟩ <;>
      simp [vpd_ssr, vpd_selected_samples, vpd_opt_stats, vpd_dynamics, vpd_frequency,
        vpd_growth_rate, vpd_forecast, dmd_eigs, dmd_amplitudes, hf, isErr, Except.map]

/-- Witness for C9: the default (unfit) state rejects `ssr`; the fitted
state of a concrete successful run accepts it. -/
theorem accessors_not_fitted_spec_witness :
    ((default : VarProDMDSt).fitted = false ∧
      isErr (vpd_ssr default nat_sqrtq) = true ∧
      isErr (vpd_forecast default [0] id) = true) ∧
    (isErr (vpd_ssr (okD c9_fit.2) nat_sqrtq) = false ∧
      isErr (vpd_forecast (okD c9_fit.2) [0] id) = false) :=
  ⟨⟨rfl, (accessors_not_fitted_spec.1 default nat_sqrtq 1 id [0] rfl).1,
      (accessors_not_fitted_spec.1 default nat_sqrtq 1 id [0] rfl).2.2.2.2.2.2⟩,
    ⟨(accessors_not_fitted_spec.2 ⟨[1, 2], [⟨1, 0⟩, ⟨1, 0⟩]⟩ ⟨[2], [0, 1]⟩ 1 false
        (SortPolicy.ofBool false) 0 oracle_c c9_fit.1 (okD c9_fit.2) rfl nat_sqrtq 1 id
        [0]).1,
      (accessors_not_fitted_spec.2 ⟨[1, 2], [⟨1, 0⟩, ⟨1, 0⟩]⟩ ⟨[2], [0, 1]⟩ 1 false
        (SortPolicy.ofBool false) 0 oracle_c c9_fit.1 (okD c9_fit.2) rfl nat_sqrtq 1 id
        [0]).2.2.2.2.2.2⟩⟩
